import Mathlib

/-!
# Bless price tracker: a shallow embedding of `public/script.js`

The script keeps four global variables (`cryptoData`, `alerts`, `portfolio`,
`filteredData`) and two slots of `localStorage`.  They are the fields of `State`
below, and every function of the script that touches them is a function on `State`.

Modelling conventions.

* The numbers stored in a coin, an alert or a holding are kept by their exact value, a
  rational number, and compared exactly; the value `NaN` that `parseFloat` may return is
  modelled by `none`.  Arithmetic and formatting act on `JSNumber`, the binary64 values
  with their rounding, into which a stored number is read by `toNumber`.
* JavaScript strings are Lean strings; `includes` is contiguous containment.
* Writes to the page (`innerHTML`, `textContent`, notifications) do not feed back
  into the four variables and are not part of the state; the value of the search
  box, which the search handler reads, is the field `searchInput`.
* `localStorage.setItem(key, JSON.stringify(xs))` is modelled by storing `xs`.
* Host methods whose result depends on data outside the script are parameters
  (`toLowerCase`, `Number::toString`); `toFixed` and `toLocaleString` are modelled from
  their standards, see the section on `formatPrice`.
-/

set_option autoImplicit false
set_option exponentiation.threshold 4096
set_option maxRecDepth 100000

namespace BlessPriceTracker

/-! ## Data model -/

/-- One element of the array returned by `/coins/markets`. -/
structure Coin where
  id : String
  name : String
  symbol : String
  image : String
  current_price : ℚ
  price_change_percentage_24h : ℚ
  deriving DecidableEq

/-- An entry of `alerts`, as built in `addAlert`. -/
structure Alert where
  coinId : String
  price : ℚ
  type : String
  createdAt : String
  deriving DecidableEq

/-- An entry of `portfolio`, as built in `addPortfolioAsset`. -/
structure Asset where
  coinId : String
  amount : ℚ
  purchasePrice : ℚ
  addedAt : String
  deriving DecidableEq

/-- The two slots of `localStorage` the script uses; `none` is a slot never written. -/
structure Storage where
  priceAlerts : Option (List Alert)
  portfolio : Option (List Asset)
  deriving DecidableEq

/-- The global variables of the script, the storage and the value of the search box. -/
structure State where
  cryptoData : List Coin
  alerts : List Alert
  portfolio : List Asset
  filteredData : List Coin
  storage : Storage
  searchInput : String
  deriving DecidableEq

/-- The lookup `cryptoData.find(c => c.id === coinId)`. -/
def findCoin (cryptoData : List Coin) (coinId : String) : Option Coin :=
  cryptoData.find? (fun c => c.id == coinId)

/-! ## JavaScript numbers

A JavaScript number is an IEEE 754 binary64 value.  A finite one is kept as its sign and
its magnitude, an exact rational; every arithmetic result is the exact result rounded to
the nearest representable value, a tie going to the even significand. -/

/-- A value of the JavaScript type Number. -/
inductive JSNumber where
  | nan
  | infinity (negative : Bool)
  | finite (negative : Bool) (magnitude : ℚ)
  deriving DecidableEq

/-- The exponent of the binade of `n / d`, kept within the binary64 range: the largest
`e` from `-1022` to `1024` with `2 ^ e ≤ n / d`, and `-1022` when there is none. -/
def binaryExponent (n d : Nat) : Int :=
  [1024, 512, 256, 128, 64, 32, 16, 8, 4, 2, 1].foldl
    (fun (e : Int) (step : Int) =>
      if e + step ≤ 1024 ∧ d * 2 ^ (e + step).toNat ≤ n * 2 ^ (-(e + step)).toNat then e + step
      else e)
    (-1022)

/-- The integer nearest to `n / d`, the even one of two. -/
def roundNearestEven (n d : Nat) : Nat :=
  let q := n / d
  let r := n % d
  if 2 * r < d then q
  else if d < 2 * r then q + 1
  else if q % 2 = 0 then q else q + 1

/-- The binary64 value nearest to `± n / d`: 53 significant bits, exponents from `-1022`
to `1023`, gradual underflow below and infinity above. -/
def roundToDouble (negative : Bool) (n d : Nat) : JSNumber :=
  if n = 0 then .finite negative 0
  else
    let e : Int := binaryExponent n d
    let k : Int := 52 - e
    let m := roundNearestEven (n * 2 ^ k.toNat) (d * 2 ^ (-k).toNat)
    if 2 ^ 1024 * 2 ^ k.toNat ≤ m * 2 ^ (-k).toNat then .infinity negative
    else .finite negative (mkRat (m * 2 ^ (-k).toNat : Nat) (2 ^ k.toNat))

/-- The Number a numeric literal or a parsed numeral of value `q` denotes. -/
def toNumber (q : ℚ) : JSNumber :=
  roundToDouble (decide (q.num < 0)) q.num.natAbs q.den

namespace JSNumber

/-- Unary minus. -/
def neg : JSNumber → JSNumber
  | nan => nan
  | infinity s => infinity (!s)
  | finite s m => finite (!s) m

/-- The operator `*`. -/
def mul : JSNumber → JSNumber → JSNumber
  | nan, _ => nan
  | _, nan => nan
  | infinity s, infinity t => infinity (s != t)
  | infinity s, finite t m => if m = 0 then nan else infinity (s != t)
  | finite s m, infinity t => if m = 0 then nan else infinity (s != t)
  | finite s a, finite t b =>
    roundToDouble (s != t) (a.num.natAbs * b.num.natAbs) (a.den * b.den)

/-- The operator `/`. -/
def div : JSNumber → JSNumber → JSNumber
  | nan, _ => nan
  | _, nan => nan
  | infinity _, infinity _ => nan
  | infinity s, finite t _ => infinity (s != t)
  | finite s _, infinity t => finite (s != t) 0
  | finite s a, finite t b =>
    if b = 0 then (if a = 0 then nan else infinity (s != t))
    else roundToDouble (s != t) (a.num.natAbs * b.den) (a.den * b.num.natAbs)

/-- The operator `+`. -/
def add : JSNumber → JSNumber → JSNumber
  | nan, _ => nan
  | _, nan => nan
  | infinity s, infinity t => if s = t then infinity s else nan
  | infinity s, finite _ _ => infinity s
  | finite _ _, infinity t => infinity t
  | finite s a, finite t b =>
    let x : Int := (if s then -1 else 1) * (a.num.natAbs * b.den : Nat)
    let y : Int := (if t then -1 else 1) * (b.num.natAbs * a.den : Nat)
    if x + y = 0 then finite (s && t) 0
    else roundToDouble (decide (x + y < 0)) (x + y).natAbs (a.den * b.den)

/-- The operator `-`. -/
def sub (x y : JSNumber) : JSNumber :=
  add x (neg y)

/-- The operator `<`: false when an operand is `NaN`; the two zeros are equal. -/
def lt : JSNumber → JSNumber → Bool
  | nan, _ => false
  | _, nan => false
  | infinity s, infinity t => s && !t
  | infinity s, finite _ _ => s
  | finite _ _, infinity t => !t
  | finite s a, finite t b =>
    decide ((if s then -a else a) < (if t then -b else b))

/-- The operator `>`. -/
def gt (x y : JSNumber) : Bool :=
  lt y x

/-- The operator `>=`: false when an operand is `NaN`. -/
def ge : JSNumber → JSNumber → Bool
  | nan, _ => false
  | _, nan => false
  | x, y => !lt x y

end JSNumber

/-! ## `checkAlerts` -/

/-- The expression bound to `isTriggered` in `checkAlerts` and in `renderAlerts`. -/
def isTriggered (alert : Alert) (currentPrice : ℚ) : Bool :=
  (alert.type == "above" && decide (currentPrice ≥ alert.price)) ||
  (alert.type == "below" && decide (currentPrice ≤ alert.price))

/-- The decision `checkAlerts` takes for one alert: no coin, no trigger. -/
def checkAlertsTriggers (cryptoData : List Coin) (alert : Alert) : Bool :=
  match findCoin cryptoData alert.coinId with
  | none => false
  | some coin => isTriggered alert coin.current_price

/-- The callback of `alerts.forEach` in `checkAlerts`, called with the element and its
index; `alerts.splice(index, 1)` acts on the array being traversed. -/
def checkAlertsCallback (alert : Alert) (index : Nat) (s : State) : State :=
  match findCoin s.cryptoData alert.coinId with
  | none => s
  | some coin =>
    if isTriggered alert coin.current_price then
      { s with
        alerts := s.alerts.eraseIdx index
        storage := { s.storage with priceAlerts := some (s.alerts.eraseIdx index) } }
    else s

/-- The traversal of `Array.prototype.forEach`: the number of steps is the length read
before the first call, step `k` reads the element that is at index `k` at that moment
and skips the call when the array has become too short. -/
def checkAlertsLoop : Nat → Nat → State → State
  | 0, _, s => s
  | n + 1, k, s =>
    match s.alerts[k]? with
    | none => checkAlertsLoop n (k + 1) s
    | some alert => checkAlertsLoop n (k + 1) (checkAlertsCallback alert k s)

/-- The function `checkAlerts`. -/
def checkAlerts (s : State) : State :=
  checkAlertsLoop s.alerts.length 0 s

/-! ## `renderAlerts` -/

/-- The value of `isTriggered` that `renderAlerts` computes for one alert; a missing
coin is given the price `0`. -/
def renderAlertsTriggered (cryptoData : List Coin) (alert : Alert) : Bool :=
  let coin := findCoin cryptoData alert.coinId
  let currentPrice : ℚ := match coin with
    | some c => c.current_price
    | none => 0
  isTriggered alert currentPrice

/-! ## `renderPortfolio` and `updatePortfolioSummary`

The fields of a holding and of a coin are read as Numbers (`toNumber`), and `+`, `-`, `*`
and `/` are the operations on Numbers. -/

/-- The figures `renderPortfolio` computes for one holding whose coin was found. -/
structure PortfolioItem where
  currentValue : JSNumber
  purchaseValue : JSNumber
  profit : JSNumber
  profitPercentage : JSNumber
  deriving DecidableEq

/-- The body of the `portfolio.map` callback of `renderPortfolio`: nothing is rendered for
a holding whose coin is missing. -/
def renderPortfolioItem (cryptoData : List Coin) (asset : Asset) : Option PortfolioItem :=
  match findCoin cryptoData asset.coinId with
  | none => none
  | some coin =>
    let currentValue := (toNumber asset.amount).mul (toNumber coin.current_price)
    let purchaseValue := (toNumber asset.amount).mul (toNumber asset.purchasePrice)
    some
      { currentValue := currentValue
        purchaseValue := purchaseValue
        profit := currentValue.sub purchaseValue
        profitPercentage := ((currentValue.div purchaseValue).sub (toNumber 1)).mul (toNumber 100) }

/-- The local variables of `updatePortfolioSummary` at the point where it writes the
page. -/
structure PortfolioSummary where
  totalValue : JSNumber
  totalPurchaseValue : JSNumber
  totalProfit : JSNumber
  totalProfitPercentage : JSNumber
  deriving DecidableEq

/-- The callback of `portfolio.forEach` in `updatePortfolioSummary`, acting on the pair
`(totalValue, totalPurchaseValue)`. -/
def updatePortfolioSummaryStep (cryptoData : List Coin) (acc : JSNumber × JSNumber)
    (asset : Asset) : JSNumber × JSNumber :=
  match findCoin cryptoData asset.coinId with
  | some coin =>
    (acc.1.add ((toNumber asset.amount).mul (toNumber coin.current_price)),
     acc.2.add ((toNumber asset.amount).mul (toNumber asset.purchasePrice)))
  | none => acc

/-- The function `updatePortfolioSummary`. -/
def updatePortfolioSummary (s : State) : PortfolioSummary :=
  let acc := s.portfolio.foldl (updatePortfolioSummaryStep s.cryptoData) (toNumber 0, toNumber 0)
  let totalValue := acc.1
  let totalPurchaseValue := acc.2
  { totalValue := totalValue
    totalPurchaseValue := totalPurchaseValue
    totalProfit := totalValue.sub totalPurchaseValue
    totalProfitPercentage :=
      if totalPurchaseValue.gt (toNumber 0) then
        ((totalValue.div totalPurchaseValue).sub (toNumber 1)).mul (toNumber 100)
      else toNumber 0 }

/-! ## The search box -/

/-- The method `String.prototype.includes` with one argument: `t` occurs in `s` at some
position. -/
def includes (s t : String) : Bool :=
  s.data.tails.any (fun u => t.data.isPrefixOf u)

/-- The `input` listener that `setupEventListeners` installs on the search box, run when
the box holds `value`.  `toLowerCase` is the host method `String.prototype.toLowerCase`. -/
def searchInputListener (toLowerCase : String → String) (value : String) (s : State) : State :=
  let searchTerm := toLowerCase value
  { s with
    searchInput := value
    filteredData := s.cryptoData.filter (fun coin =>
      includes (toLowerCase coin.name) searchTerm ||
      includes (toLowerCase coin.symbol) searchTerm) }

/-- Lower-casing of the letters `A` to `Z`; `toLowerCase` acts so on strings of ASCII
characters. -/
def asciiLowerCase (s : String) : String :=
  ⟨s.data.map Char.toLower⟩

/-! ## Fetching -/

/-- What `fetch` and `response.json()` can deliver to `loadCryptoData`: the request is
rejected, or a response arrives with its `ok` flag and a body that parses (`some`) or
does not (`none`). -/
inductive FetchResult where
  | rejected
  | response (ok : Bool) (json : Option (List Coin))
  deriving DecidableEq

/-- The function `loadCryptoData`: the state it leaves and the error it throws, if
any. -/
def loadCryptoData (r : FetchResult) (s : State) : Except String Unit × State :=
  match r with
  | .rejected => (.error "fetch rejected", s)
  | .response ok json =>
    if !ok then (.error "Failed to fetch crypto data", s)
    else
      match json with
      | none => (.error "json rejected", s)
      | some data => (.ok (), { s with cryptoData := data, filteredData := data })

/-- The function `refreshPrices`: an error of `loadCryptoData` is caught. -/
def refreshPrices (r : FetchResult) (s : State) : Except String Unit × State :=
  match loadCryptoData r s with
  | (.ok _, s') => (.ok (), s')
  | (.error _, s') => (.ok (), s')

/-! ## Adding and deleting entries -/

/-- The test `!price` on the result of `parseFloat`: true for `NaN` and for zero. -/
def numberIsFalsy (x : Option ℚ) : Bool :=
  match x with
  | none => true
  | some q => q == 0

/-- The test `price <= 0` on the result of `parseFloat`: false for `NaN`. -/
def numberLeZero (x : Option ℚ) : Bool :=
  match x with
  | none => false
  | some q => decide (q ≤ 0)

/-- The function `addAlert`; `coinId` and `type` are the values of the two selects,
`price` is `parseFloat` of the price field and `now` is `new Date().toISOString()`. -/
def addAlert (coinId : String) (price : Option ℚ) (type now : String) (s : State) : State :=
  if coinId == "" || numberIsFalsy price || numberLeZero price then s
  else
    match price with
    | none => s
    | some p =>
      let newAlert : Alert := { coinId := coinId, price := p, type := type, createdAt := now }
      { s with
        alerts := s.alerts ++ [newAlert]
        storage := { s.storage with priceAlerts := some (s.alerts ++ [newAlert]) } }

/-- The function `addPortfolioAsset`, with the form fields passed as for `addAlert`. -/
def addPortfolioAsset (coinId : String) (amount purchasePrice : Option ℚ) (now : String)
    (s : State) : State :=
  if coinId == "" || numberIsFalsy amount || numberIsFalsy purchasePrice ||
      numberLeZero amount || numberLeZero purchasePrice then s
  else
    match amount, purchasePrice with
    | some a, some p =>
      let newAsset : Asset := { coinId := coinId, amount := a, purchasePrice := p, addedAt := now }
      { s with
        portfolio := s.portfolio ++ [newAsset]
        storage := { s.storage with portfolio := some (s.portfolio ++ [newAsset]) } }
    | _, _ => s

/-- The function `deleteAlert`; `confirmed` is the answer of `confirm`.  The index comes
from the `onclick` attribute written by `renderAlerts`, a natural number, for which
`splice(index, 1)` erases the element at that index if there is one. -/
def deleteAlert (index : Nat) (confirmed : Bool) (s : State) : State :=
  if confirmed then
    { s with
      alerts := s.alerts.eraseIdx index
      storage := { s.storage with priceAlerts := some (s.alerts.eraseIdx index) } }
  else s

/-- The function `deletePortfolioAsset`; see `deleteAlert`. -/
def deletePortfolioAsset (index : Nat) (confirmed : Bool) (s : State) : State :=
  if confirmed then
    { s with
      portfolio := s.portfolio.eraseIdx index
      storage := { s.storage with portfolio := some (s.portfolio.eraseIdx index) } }
  else s

/-! ## `formatPrice`

The two host methods `formatPrice` calls are modelled on binary64 values.
`Number.prototype.toFixed` (ECMA-262) rounds the exact value of the number, a tie going to
the larger magnitude.  `Number.prototype.toLocaleString` with locale `en-US` (ECMA-402 as
carried out by ICU) rounds the shortest decimal numeral that reads back as the number,
the numeral `String(x)` shows, a tie going to the larger magnitude; its group separator
is `,`, its decimal separator `.` and its group size 3. -/

/-- The exponent of the decade of `n / d`: the largest `e` from `-512` to `511` with
`10 ^ e ≤ n / d`, and `-512` when there is none. -/
def decimalExponent (n d : Nat) : Int :=
  [512, 256, 128, 64, 32, 16, 8, 4, 2, 1].foldl
    (fun (e : Int) (step : Int) =>
      if e + step ≤ 511 ∧ d * 10 ^ (e + step).toNat ≤ n * 10 ^ (-(e + step)).toNat then e + step
      else e)
    (-512)

/-- The decimal numeral of `k` significant digits nearest to the positive `m` among those
that read back as the same Number as `m`, if there is one (of two equally near, the one
with the even last digit). -/
def decimalCandidate (m : ℚ) (k : Nat) : Option ℚ :=
  let n := m.num.natAbs
  let d := m.den
  let e : Int := decimalExponent n d - k + 1
  let s := (n * 10 ^ (-e).toNat) / (d * 10 ^ e.toNat)
  let lo : ℚ := mkRat (s * 10 ^ e.toNat : Nat) (10 ^ (-e).toNat)
  let hi : ℚ := mkRat ((s + 1) * 10 ^ e.toNat : Nat) (10 ^ (-e).toNat)
  let okLo := decide (toNumber lo = toNumber m)
  let okHi := decide (toNumber hi = toNumber m)
  if okLo && okHi then
    if 2 * (n * 10 ^ (-e).toNat) < (2 * s + 1) * (d * 10 ^ e.toNat) then some lo
    else if (2 * s + 1) * (d * 10 ^ e.toNat) < 2 * (n * 10 ^ (-e).toNat) then some hi
    else if s % 2 = 0 then some lo else some hi
  else if okLo then some lo
  else if okHi then some hi
  else none

/-- The value of the shortest decimal numeral that reads back as the Number of magnitude
`m`; seventeen significant digits always suffice. -/
def shortestDecimal (m : ℚ) : ℚ :=
  if m.num = 0 then 0
  else
    match [1, 2, 3, 4, 5, 6, 7, 8, 9, 10, 11, 12, 13, 14, 15, 16, 17].findSome?
        (decimalCandidate m) with
    | some c => c
    | none => m

/-- The integer `n` for which `n / 10 ^ f` is nearest to `|x|`, the larger one of two. -/
def roundHalfUp (x : ℚ) (f : Nat) : Nat :=
  (2 * x.num.natAbs * 10 ^ f + x.den) / (2 * x.den)

/-- The digit string of `n`, padded with zeros on the left to `f + 1` characters, cut into
the characters before and after the decimal point (steps 11.b and 11.c of `toFixed`). -/
def fixedParts (n f : Nat) : List Char × List Char :=
  let m := Nat.toDigits 10 n
  let m := if m.length ≤ f then List.replicate (f + 1 - m.length) '0' ++ m else m
  (m.take (m.length - f), m.drop (m.length - f))

/-- The `en-US` grouping of an integer digit string: a comma before every group of three
digits counted from the right. -/
def groupThousands : List Char → List Char
  | [] => []
  | c :: cs =>
    if cs ≠ [] ∧ cs.length % 3 = 0 then c :: ',' :: groupThousands cs
    else c :: groupThousands cs

/-- The method `Number.prototype.toFixed` with `f` fraction digits, `1 ≤ f`;
`numberToString` is the host's `Number::toString` on a magnitude, which `toFixed` falls
back to from `10 ^ 21` on. -/
def toFixed (numberToString : ℚ → String) (x : JSNumber) (f : Nat) : String :=
  match x with
  | .nan => "NaN"
  | .infinity s => if s then "-Infinity" else "Infinity"
  | .finite s m =>
    let sign : List Char := if s && decide (m ≠ 0) then ['-'] else []
    if m ≥ 10 ^ 21 then ⟨sign ++ (numberToString m).data⟩
    else
      let parts := fixedParts (roundHalfUp m f) f
      ⟨sign ++ (parts.1 ++ '.' :: parts.2)⟩

/-- The call `toLocaleString('en-US', { minimumFractionDigits: 2, maximumFractionDigits: 2 })`. -/
def toLocaleString (x : JSNumber) : String :=
  match x with
  | .nan => "NaN"
  | .infinity s => if s then "-∞" else "∞"
  | .finite s m =>
    let sign : List Char := if s then ['-'] else []
    let parts := fixedParts (roundHalfUp (shortestDecimal m) 2) 2
    ⟨sign ++ (groupThousands parts.1 ++ '.' :: parts.2)⟩

/-- The function `formatPrice`. -/
def formatPrice (numberToString : ℚ → String) (price : JSNumber) : String :=
  if price.ge (.finite false 1) then toLocaleString price else toFixed numberToString price 6

/-- The `k` lowest decimal digits of `n`, the most significant first. -/
def lowDigits (k n : Nat) : List Char :=
  (List.range k).reverse.map (fun i => Nat.digitChar (n / 10 ^ i % 10))

/-! ## Alerts: what one pass of `checkAlerts` removes -/

theorem filter_eraseIdx_of_false {α : Type} (p : α → Bool) :
    ∀ (l : List α) (k : Nat) (a : α), l[k]? = some a → p a = false →
      (l.eraseIdx k).filter p = l.filter p
  | [], _, _, h, _ => by simp at h
  | x :: xs, 0, a, h, hp => by
    simp at h
    subst h
    simp [List.filter_cons, hp]
  | x :: xs, k + 1, a, h, hp => by
    simp at h
    simp [List.eraseIdx_cons_succ, List.filter_cons, filter_eraseIdx_of_false p xs k a h hp]

theorem checkAlertsTriggers_iff (cryptoData : List Coin) (a : Alert) :
    checkAlertsTriggers cryptoData a = true ↔
      ∃ coin, cryptoData.find? (fun c => c.id == a.coinId) = some coin ∧
        ((a.type = "above" ∧ coin.current_price ≥ a.price) ∨
         (a.type = "below" ∧ coin.current_price ≤ a.price)) := by
  unfold checkAlertsTriggers findCoin
  cases h : cryptoData.find? (fun c => c.id == a.coinId) with
  | none => simp
  | some coin => simp [isTriggered]

theorem checkAlertsCallback_spec (alert : Alert) (k : Nat) (s : State)
    (h : s.alerts[k]? = some alert) :
    (checkAlertsCallback alert k s).cryptoData = s.cryptoData ∧
    (checkAlertsCallback alert k s).alerts.Sublist s.alerts ∧
    (checkAlertsCallback alert k s).alerts.filter (fun a => !checkAlertsTriggers s.cryptoData a) =
      s.alerts.filter (fun a => !checkAlertsTriggers s.cryptoData a) := by
  unfold checkAlertsCallback
  cases hc : findCoin s.cryptoData alert.coinId with
  | none => simp
  | some coin =>
    by_cases ht : isTriggered alert coin.current_price = true
    · simp only [ht, if_true]
      refine ⟨trivial, List.eraseIdx_sublist _ _, ?_⟩
      apply filter_eraseIdx_of_false _ _ _ alert h
      simp [checkAlertsTriggers, hc, ht]
    · simp [ht]

theorem checkAlertsLoop_spec : ∀ (n k : Nat) (s : State),
    (checkAlertsLoop n k s).cryptoData = s.cryptoData ∧
    (checkAlertsLoop n k s).alerts.Sublist s.alerts ∧
    (checkAlertsLoop n k s).alerts.filter (fun a => !checkAlertsTriggers s.cryptoData a) =
      s.alerts.filter (fun a => !checkAlertsTriggers s.cryptoData a)
  | 0, _, s => by simp [checkAlertsLoop]
  | n + 1, k, s => by
    unfold checkAlertsLoop
    cases h : s.alerts[k]? with
    | none => exact checkAlertsLoop_spec n (k + 1) s
    | some alert =>
      simp only
      obtain ⟨c1, c2, c3⟩ := checkAlertsCallback_spec alert k s h
      obtain ⟨l1, l2, l3⟩ := checkAlertsLoop_spec n (k + 1) (checkAlertsCallback alert k s)
      rw [c1] at l1 l3
      exact ⟨l1, l2.trans c2, l3.trans c3⟩

/-- C2: one pass of `checkAlerts` returns a subsequence of the alerts; the alerts that do
not trigger (coin missing or condition false) are all kept, in order and multiplicity, so
an alert is removed only if it triggers; and an alert triggers exactly when its coin is
found and the found price is `≥` the threshold for `above`, `≤` for `below`. -/
theorem checkAlerts_removes_only_triggered (s : State) :
    (checkAlerts s).alerts.Sublist s.alerts ∧
    (checkAlerts s).alerts.filter (fun a => !checkAlertsTriggers s.cryptoData a) =
      s.alerts.filter (fun a => !checkAlertsTriggers s.cryptoData a) ∧
    (s.alerts.filter (fun a => !checkAlertsTriggers s.cryptoData a)).Sublist (checkAlerts s).alerts ∧
    (∀ a, (checkAlerts s).alerts.count a < s.alerts.count a →
      checkAlertsTriggers s.cryptoData a = true) ∧
    (∀ a, checkAlertsTriggers s.cryptoData a = true ↔
      ∃ coin, s.cryptoData.find? (fun c => c.id == a.coinId) = some coin ∧
        ((a.type = "above" ∧ coin.current_price ≥ a.price) ∨
         (a.type = "below" ∧ coin.current_price ≤ a.price))) := by
  obtain ⟨_, h2, h3⟩ := checkAlertsLoop_spec s.alerts.length 0 s
  refine ⟨h2, h3, ?_, ?_, fun a => checkAlertsTriggers_iff _ a⟩
  · rw [← h3]
    exact List.filter_sublist _
  · intro a hlt
    by_contra hne
    have hp : (fun a => !checkAlertsTriggers s.cryptoData a) a = true := by simpa using hne
    have e1 := List.count_filter (p := fun a => !checkAlertsTriggers s.cryptoData a)
      (a := a) (l := (checkAlerts s).alerts) hp
    have e2 := List.count_filter (p := fun a => !checkAlertsTriggers s.cryptoData a)
      (a := a) (l := s.alerts) hp
    have h3' : (checkAlerts s).alerts.filter (fun a => !checkAlertsTriggers s.cryptoData a) =
      s.alerts.filter (fun a => !checkAlertsTriggers s.cryptoData a) := h3
    rw [h3', e2] at e1
    omega

/-- C1: with two adjacent alerts that both trigger, one pass of `checkAlerts` removes the
first and never visits the second, which stays in `alerts` with its coin present and its
condition true. -/
theorem checkAlerts_skips_alert_after_removed :
    (checkAlerts
      { cryptoData := [⟨"bitcoin", "Bitcoin", "btc", "", 10, 0⟩]
        alerts := [⟨"bitcoin", 5, "above", "t1"⟩, ⟨"bitcoin", 6, "above", "t2"⟩]
        portfolio := [], filteredData := [], storage := ⟨none, none⟩
        searchInput := "" }).alerts = [⟨"bitcoin", 6, "above", "t2"⟩] ∧
    checkAlertsTriggers [⟨"bitcoin", "Bitcoin", "btc", "", 10, 0⟩]
      ⟨"bitcoin", 6, "above", "t2"⟩ = true := by
  decide

/-- C10: for an alert of type `below` with a positive threshold whose coin is not in
`cryptoData`, `renderAlerts` computes `isTriggered` as true while `checkAlerts` does not
trigger it. -/
theorem renderAlerts_triggers_absent_below :
    renderAlertsTriggered [⟨"bitcoin", "Bitcoin", "btc", "", 10, 0⟩]
      ⟨"dogecoin", 5, "below", "t1"⟩ = true ∧
    checkAlertsTriggers [⟨"bitcoin", "Bitcoin", "btc", "", 10, 0⟩]
      ⟨"dogecoin", 5, "below", "t1"⟩ = false := by
  decide

theorem renderAlertsTriggered_eq_of_found (cryptoData : List Coin) (alert : Alert) (coin : Coin)
    (h : findCoin cryptoData alert.coinId = some coin) :
    renderAlertsTriggered cryptoData alert = checkAlertsTriggers cryptoData alert := by
  simp [renderAlertsTriggered, checkAlertsTriggers, h]

/-! ## Portfolio totals -/

theorem foldl_updatePortfolioSummaryStep (cryptoData : List Coin) :
    ∀ (l : List Asset) (acc : JSNumber × JSNumber),
      l.foldl (updatePortfolioSummaryStep cryptoData) acc =
        ((l.filterMap (fun a => (findCoin cryptoData a.coinId).map
            (fun c => (toNumber a.amount).mul (toNumber c.current_price)))).foldl
              JSNumber.add acc.1,
         ((l.filter (fun a => (findCoin cryptoData a.coinId).isSome)).map
            (fun a => (toNumber a.amount).mul (toNumber a.purchasePrice))).foldl
              JSNumber.add acc.2)
  | [], acc => by simp
  | a :: l, acc => by
    rw [List.foldl_cons, foldl_updatePortfolioSummaryStep cryptoData l]
    cases h : findCoin cryptoData a.coinId with
    | none => simp [updatePortfolioSummaryStep, h, List.filterMap_cons, List.filter_cons]
    | some c => simp [updatePortfolioSummaryStep, h, List.filterMap_cons, List.filter_cons]

/-- C3: `updatePortfolioSummary` leaves in `totalValue` the sum, taken with the addition
of Numbers from 0 in the order of the sequence, of amount × found price, and in
`totalPurchaseValue` that of amount × purchase price, both over the holdings whose coin is
found; the percentage is `(totalValue / totalPurchaseValue - 1) * 100` when
`totalPurchaseValue > 0` and `0` otherwise.  For a holding of cost 100 and value 150 and
one of cost 300 and value 300 the percentage is 12.5, while the two percentages
`renderPortfolio` shows for the holdings are 50 and 0, of mean 25. -/
theorem updatePortfolioSummary_totals :
    (∀ s : State,
      (updatePortfolioSummary s).totalValue =
        (s.portfolio.filterMap (fun a => (findCoin s.cryptoData a.coinId).map
          (fun c => (toNumber a.amount).mul (toNumber c.current_price)))).foldl
            JSNumber.add (toNumber 0) ∧
      (updatePortfolioSummary s).totalPurchaseValue =
        ((s.portfolio.filter (fun a => (findCoin s.cryptoData a.coinId).isSome)).map
          (fun a => (toNumber a.amount).mul (toNumber a.purchasePrice))).foldl
            JSNumber.add (toNumber 0) ∧
      (updatePortfolioSummary s).totalProfitPercentage =
        (if (updatePortfolioSummary s).totalPurchaseValue.gt (toNumber 0) then
          (((updatePortfolioSummary s).totalValue.div
            (updatePortfolioSummary s).totalPurchaseValue).sub (toNumber 1)).mul (toNumber 100)
         else toNumber 0)) ∧
    (updatePortfolioSummary
      { cryptoData := [⟨"a", "A", "a", "", 150, 0⟩, ⟨"b", "B", "b", "", 300, 0⟩]
        alerts := []
        portfolio := [⟨"a", 1, 100, "t1"⟩, ⟨"b", 1, 300, "t2"⟩]
        filteredData := [], storage := ⟨none, none⟩
        searchInput := "" }).totalProfitPercentage = toNumber (mkRat 25 2) ∧
    ([⟨"a", 1, 100, "t1"⟩, ⟨"b", 1, 300, "t2"⟩].map
      (fun a => (renderPortfolioItem
        [⟨"a", "A", "a", "", 150, 0⟩, ⟨"b", "B", "b", "", 300, 0⟩] a).map
          (fun r => r.profitPercentage))) = [some (toNumber 50), some (toNumber 0)] ∧
    ((toNumber 50).add (toNumber 0)).div (toNumber 2) = toNumber 25 ∧
    toNumber (mkRat 25 2) ≠ toNumber 25 := by
  refine ⟨fun s => ⟨?_, ?_, ?_⟩, by decide, by decide, by decide, by decide⟩
  · simp [updatePortfolioSummary, foldl_updatePortfolioSummaryStep]
  · simp [updatePortfolioSummary, foldl_updatePortfolioSummaryStep]
  · simp [updatePortfolioSummary]

/-! ## Search -/

theorem includes_iff (s t : String) : includes s t = true ↔ t.data <:+: s.data := by
  unfold includes
  rw [List.any_eq_true, List.infix_iff_prefix_suffix]
  constructor
  · rintro ⟨u, hu, hp⟩
    exact ⟨u, List.isPrefixOf_iff_prefix.mp hp, (List.mem_tails _ _).mp hu⟩
  · rintro ⟨u, hp, hu⟩
    exact ⟨u, (List.mem_tails _ _).mpr hu, List.isPrefixOf_iff_prefix.mpr hp⟩

/-- C4: the search listener sets `filteredData` to the coins of `cryptoData`, in order,
whose lower-cased name or lower-cased symbol contains the lower-cased term; with the empty
term this is all of `cryptoData`; and with `bit` against Bitcoin and Ether it is Bitcoin
alone. -/
theorem searchInputListener_filters (toLowerCase : String → String)
    (hempty : toLowerCase "" = "") (value : String) (s : State) :
    (searchInputListener toLowerCase value s).filteredData =
      s.cryptoData.filter (fun c => decide
        ((toLowerCase value).data <:+: (toLowerCase c.name).data ∨
         (toLowerCase value).data <:+: (toLowerCase c.symbol).data)) ∧
    (searchInputListener toLowerCase value s).filteredData.Sublist s.cryptoData ∧
    (∀ c, c ∈ (searchInputListener toLowerCase value s).filteredData ↔
      c ∈ s.cryptoData ∧
        ((toLowerCase value).data <:+: (toLowerCase c.name).data ∨
         (toLowerCase value).data <:+: (toLowerCase c.symbol).data)) ∧
    (searchInputListener toLowerCase "" s).filteredData = s.cryptoData ∧
    (searchInputListener toLowerCase value s).cryptoData = s.cryptoData ∧
    (searchInputListener asciiLowerCase "bit"
      { s with cryptoData := [⟨"bitcoin", "Bitcoin", "btc", "", 10, 0⟩,
                              ⟨"ethereum", "Ether", "eth", "", 5, 0⟩] }).filteredData =
      [⟨"bitcoin", "Bitcoin", "btc", "", 10, 0⟩] := by
  have key : ∀ v : String, (searchInputListener toLowerCase v s).filteredData =
      s.cryptoData.filter (fun c => decide
        ((toLowerCase v).data <:+: (toLowerCase c.name).data ∨
         (toLowerCase v).data <:+: (toLowerCase c.symbol).data)) := by
    intro v
    simp only [searchInputListener]
    apply List.filter_congr
    intro c _
    rw [Bool.eq_iff_iff]
    simp [includes_iff]
  refine ⟨key value, ?_, ?_, ?_, rfl, ?_⟩
  rotate_left 3
  · simp only [searchInputListener]
    decide
  · rw [key]; exact List.filter_sublist _
  · intro c
    rw [key]
    simp [List.mem_filter]
  · rw [key, hempty]
    simp

/-- Witness of C4 with ASCII lower-casing and the term `BIT`. -/
theorem searchInputListener_filters_witness :
    asciiLowerCase "" = "" ∧
    (searchInputListener asciiLowerCase "BIT"
      { cryptoData := [⟨"bitcoin", "Bitcoin", "btc", "", 10, 0⟩,
                       ⟨"ethereum", "Ether", "eth", "", 5, 0⟩]
        alerts := [], portfolio := [], filteredData := [], storage := ⟨none, none⟩
        searchInput := "" }).filteredData.Sublist
      [⟨"bitcoin", "Bitcoin", "btc", "", 10, 0⟩, ⟨"ethereum", "Ether", "eth", "", 5, 0⟩] :=
  ⟨by decide,
   (searchInputListener_filters asciiLowerCase (by decide) "BIT"
      { cryptoData := [⟨"bitcoin", "Bitcoin", "btc", "", 10, 0⟩,
                       ⟨"ethereum", "Ether", "eth", "", 5, 0⟩]
        alerts := [], portfolio := [], filteredData := [], storage := ⟨none, none⟩
        searchInput := "" }).2.1⟩

/-! ## Fetching -/

/-- C5, counterexample: with `bit` in the search box, a successful `loadCryptoData` of
Bitcoin and Ether leaves both coins in `filteredData`, whereas the filter for `bit` keeps
Bitcoin only. -/
theorem loadCryptoData_does_not_filter :
    (loadCryptoData
      (.response true (some [⟨"bitcoin", "Bitcoin", "btc", "", 10, 0⟩,
                             ⟨"ethereum", "Ether", "eth", "", 5, 0⟩]))
      { cryptoData := [⟨"bitcoin", "Bitcoin", "btc", "", 9, 0⟩]
        alerts := [], portfolio := []
        filteredData := [⟨"bitcoin", "Bitcoin", "btc", "", 9, 0⟩]
        storage := ⟨none, none⟩
        searchInput := "bit" }).2.filteredData =
      [⟨"bitcoin", "Bitcoin", "btc", "", 10, 0⟩, ⟨"ethereum", "Ether", "eth", "", 5, 0⟩] ∧
    [(⟨"bitcoin", "Bitcoin", "btc", "", 10, 0⟩ : Coin), ⟨"ethereum", "Ether", "eth", "", 5, 0⟩].filter
      (fun coin => includes (asciiLowerCase coin.name) (asciiLowerCase "bit") ||
        includes (asciiLowerCase coin.symbol) (asciiLowerCase "bit")) =
      [⟨"bitcoin", "Bitcoin", "btc", "", 10, 0⟩] ∧
    (loadCryptoData
      (.response true (some [⟨"bitcoin", "Bitcoin", "btc", "", 10, 0⟩,
                             ⟨"ethereum", "Ether", "eth", "", 5, 0⟩]))
      { cryptoData := [⟨"bitcoin", "Bitcoin", "btc", "", 9, 0⟩]
        alerts := [], portfolio := []
        filteredData := [⟨"bitcoin", "Bitcoin", "btc", "", 9, 0⟩]
        storage := ⟨none, none⟩
        searchInput := "bit" }).2.filteredData ≠
    [(⟨"bitcoin", "Bitcoin", "btc", "", 10, 0⟩ : Coin), ⟨"ethereum", "Ether", "eth", "", 5, 0⟩].filter
      (fun coin => includes (asciiLowerCase coin.name) (asciiLowerCase "bit") ||
        includes (asciiLowerCase coin.symbol) (asciiLowerCase "bit")) := by
  decide

/-- C5, amended: a successful `loadCryptoData` (and `refreshPrices`) overwrites
`cryptoData` with the new snapshot and sets `filteredData` to the whole new snapshot,
whatever the search box holds; everything else is unchanged, and the filter for the term
in the box is what the next run of the search listener produces. -/
theorem loadCryptoData_success (data : List Coin) (s : State) :
    (loadCryptoData (.response true (some data)) s).1 = .ok () ∧
    (loadCryptoData (.response true (some data)) s).2.cryptoData = data ∧
    (loadCryptoData (.response true (some data)) s).2.filteredData = data ∧
    (loadCryptoData (.response true (some data)) s).2.searchInput = s.searchInput ∧
    (loadCryptoData (.response true (some data)) s).2.alerts = s.alerts ∧
    (loadCryptoData (.response true (some data)) s).2.portfolio = s.portfolio ∧
    (loadCryptoData (.response true (some data)) s).2.storage = s.storage ∧
    refreshPrices (.response true (some data)) s =
      (.ok (), (loadCryptoData (.response true (some data)) s).2) ∧
    (∀ toLowerCase : String → String,
      (searchInputListener toLowerCase s.searchInput
        (loadCryptoData (.response true (some data)) s).2).filteredData =
      data.filter (fun coin =>
        includes (toLowerCase coin.name) (toLowerCase s.searchInput) ||
        includes (toLowerCase coin.symbol) (toLowerCase s.searchInput))) := by
  simp [loadCryptoData, refreshPrices, searchInputListener]

/-- C6: when the request is rejected, the response is not `ok`, or its body does not
parse, `loadCryptoData` throws and leaves the whole state (`cryptoData`, `filteredData`,
`alerts`, `portfolio`, storage) as it was, and `refreshPrices` returns normally with the
state as it was. -/
theorem fetch_failure_keeps_state (s : State) :
    (∃ e, loadCryptoData .rejected s = (.error e, s)) ∧
    (∀ json, ∃ e, loadCryptoData (.response false json) s = (.error e, s)) ∧
    (∃ e, loadCryptoData (.response true none) s = (.error e, s)) ∧
    refreshPrices .rejected s = (.ok (), s) ∧
    (∀ json, refreshPrices (.response false json) s = (.ok (), s)) ∧
    refreshPrices (.response true none) s = (.ok (), s) := by
  simp [loadCryptoData, refreshPrices]

/-! ## Adding entries -/

theorem addAlert_of_valid (coinId type now : String) (p : ℚ) (s : State)
    (hc : coinId ≠ "") (hp : 0 < p) :
    addAlert coinId (some p) type now s =
      { s with
        alerts := s.alerts ++ [⟨coinId, p, type, now⟩]
        storage := { s.storage with priceAlerts := some (s.alerts ++ [⟨coinId, p, type, now⟩]) } } := by
  have h0 : p ≠ 0 := ne_of_gt hp
  have h1 : ¬ p ≤ 0 := not_le.mpr hp
  simp [addAlert, numberIsFalsy, numberLeZero, hc, h0, h1]

theorem addAlert_of_invalid (coinId type now : String) (price : Option ℚ) (s : State)
    (h : ¬ (coinId ≠ "" ∧ ∃ p, price = some p ∧ 0 < p)) :
    addAlert coinId price type now s = s := by
  cases price with
  | none => simp [addAlert, numberIsFalsy]
  | some p =>
    by_cases hc : coinId = ""
    · simp [addAlert, hc]
    · have hp : p ≤ 0 := by
        by_contra hp
        exact h ⟨hc, p, rfl, not_le.mp hp⟩
      simp [addAlert, numberLeZero, hp]

theorem addPortfolioAsset_of_valid (coinId now : String) (a p : ℚ) (s : State)
    (hc : coinId ≠ "") (ha : 0 < a) (hp : 0 < p) :
    addPortfolioAsset coinId (some a) (some p) now s =
      { s with
        portfolio := s.portfolio ++ [⟨coinId, a, p, now⟩]
        storage := { s.storage with portfolio := some (s.portfolio ++ [⟨coinId, a, p, now⟩]) } } := by
  have h0 : p ≠ 0 := ne_of_gt hp
  have h1 : ¬ p ≤ 0 := not_le.mpr hp
  have h2 : a ≠ 0 := ne_of_gt ha
  have h3 : ¬ a ≤ 0 := not_le.mpr ha
  simp [addPortfolioAsset, numberIsFalsy, numberLeZero, hc, h0, h1, h2, h3]

theorem addPortfolioAsset_of_invalid (coinId now : String) (amount purchasePrice : Option ℚ)
    (s : State)
    (h : ¬ (coinId ≠ "" ∧ ∃ a p, amount = some a ∧ purchasePrice = some p ∧ 0 < a ∧ 0 < p)) :
    addPortfolioAsset coinId amount purchasePrice now s = s := by
  cases amount with
  | none => simp [addPortfolioAsset, numberIsFalsy]
  | some a =>
    cases purchasePrice with
    | none => simp [addPortfolioAsset, numberIsFalsy]
    | some p =>
      by_cases hc : coinId = ""
      · simp [addPortfolioAsset, hc]
      · by_cases ha : a ≤ 0
        · simp [addPortfolioAsset, numberLeZero, ha]
        · have hp : p ≤ 0 := by
            by_contra hp
            exact h ⟨hc, a, p, rfl, rfl, not_le.mp ha, not_le.mp hp⟩
          simp [addPortfolioAsset, numberLeZero, hp]

theorem append_singleton_ne_self {α : Type} (l : List α) (x : α) : l ++ [x] ≠ l := by
  intro h
  have := congrArg List.length h
  simp at this

/-- C7: `addAlert` appends the one alert `{coinId, price, type, createdAt}` exactly when
`coinId` is not empty and the parsed price is a number above 0, and otherwise changes
nothing; `addPortfolioAsset` appends one holding exactly when `coinId` is not empty and
amount and purchase price are numbers above 0, and otherwise changes nothing; the entries
added have threshold, amount and purchase price above 0. -/
theorem addAlert_addPortfolioAsset_valid (coinId type now : String)
    (price amount purchasePrice : Option ℚ) (s : State) :
    ((coinId ≠ "" ∧ ∃ p, price = some p ∧ 0 < p) ↔
      ∃ p, price = some p ∧
        (addAlert coinId price type now s).alerts = s.alerts ++ [⟨coinId, p, type, now⟩] ∧
        (addAlert coinId price type now s).storage.priceAlerts =
          some (s.alerts ++ [⟨coinId, p, type, now⟩])) ∧
    (¬ (coinId ≠ "" ∧ ∃ p, price = some p ∧ 0 < p) ↔ addAlert coinId price type now s = s) ∧
    (∀ a ∈ (addAlert coinId price type now s).alerts.drop s.alerts.length, 0 < a.price) ∧
    ((coinId ≠ "" ∧ ∃ a p, amount = some a ∧ purchasePrice = some p ∧ 0 < a ∧ 0 < p) ↔
      ∃ a p, amount = some a ∧ purchasePrice = some p ∧
        (addPortfolioAsset coinId amount purchasePrice now s).portfolio =
          s.portfolio ++ [⟨coinId, a, p, now⟩] ∧
        (addPortfolioAsset coinId amount purchasePrice now s).storage.portfolio =
          some (s.portfolio ++ [⟨coinId, a, p, now⟩])) ∧
    (¬ (coinId ≠ "" ∧ ∃ a p, amount = some a ∧ purchasePrice = some p ∧ 0 < a ∧ 0 < p) ↔
      addPortfolioAsset coinId amount purchasePrice now s = s) ∧
    (∀ h ∈ (addPortfolioAsset coinId amount purchasePrice now s).portfolio.drop
        s.portfolio.length, 0 < h.amount ∧ 0 < h.purchasePrice) := by
  refine ⟨⟨?_, ?_⟩, ⟨?_, ?_⟩, ?_, ⟨?_, ?_⟩, ⟨?_, ?_⟩, ?_⟩
  · rintro ⟨hc, p, rfl, hp⟩
    exact ⟨p, rfl, by rw [addAlert_of_valid _ _ _ _ _ hc hp],
      by rw [addAlert_of_valid _ _ _ _ _ hc hp]⟩
  · rintro ⟨p, rfl, h, _⟩
    by_contra hv
    rw [addAlert_of_invalid _ _ _ _ _ hv] at h
    exact append_singleton_ne_self _ _ h.symm
  · exact addAlert_of_invalid _ _ _ _ _
  · intro h
    rintro ⟨hc, p, rfl, hp⟩
    have := congrArg State.alerts h
    rw [addAlert_of_valid _ _ _ _ _ hc hp] at this
    exact append_singleton_ne_self _ _ this
  · intro a ha
    by_cases hv : coinId ≠ "" ∧ ∃ p, price = some p ∧ 0 < p
    · obtain ⟨hc, p, rfl, hp⟩ := hv
      rw [addAlert_of_valid _ _ _ _ _ hc hp] at ha
      simp at ha
      rw [ha]
      exact hp
    · rw [addAlert_of_invalid _ _ _ _ _ hv] at ha
      simp at ha
  · rintro ⟨hc, a, p, rfl, rfl, ha, hp⟩
    exact ⟨a, p, rfl, rfl, by rw [addPortfolioAsset_of_valid _ _ _ _ _ hc ha hp],
      by rw [addPortfolioAsset_of_valid _ _ _ _ _ hc ha hp]⟩
  · rintro ⟨a, p, rfl, rfl, h, _⟩
    by_contra hv
    rw [addPortfolioAsset_of_invalid _ _ _ _ _ hv] at h
    exact append_singleton_ne_self _ _ h.symm
  · exact addPortfolioAsset_of_invalid _ _ _ _ _
  · intro h
    rintro ⟨hc, a, p, rfl, rfl, ha, hp⟩
    have := congrArg State.portfolio h
    rw [addPortfolioAsset_of_valid _ _ _ _ _ hc ha hp] at this
    exact append_singleton_ne_self _ _ this
  · intro x hx
    by_cases hv : coinId ≠ "" ∧ ∃ a p, amount = some a ∧ purchasePrice = some p ∧ 0 < a ∧ 0 < p
    · obtain ⟨hc, a, p, rfl, rfl, ha, hp⟩ := hv
      rw [addPortfolioAsset_of_valid _ _ _ _ _ hc ha hp] at hx
      simp at hx
      rw [hx]
      exact ⟨ha, hp⟩
    · rw [addPortfolioAsset_of_invalid _ _ _ _ _ hv] at hx
      simp at hx


/-! ## Deleting entries -/

/-- C8: for an index `i` inside `portfolio`, a confirmed `deletePortfolioAsset i` leaves a
sequence one shorter in which the entries before `i` are as before and the entry formerly
at `j > i` is at `j - 1`, and writes exactly that sequence to storage, whatever `alerts`
holds; the same holds for `deleteAlert k` on `alerts` for an index `k` inside `alerts`,
whatever `portfolio` holds; a declined confirmation changes nothing. -/
theorem delete_shifts_and_persists (s : State) (i k : Nat) :
    (i < s.portfolio.length →
      (deletePortfolioAsset i true s).portfolio.length = s.portfolio.length - 1 ∧
      (∀ j, j < i → (deletePortfolioAsset i true s).portfolio[j]? = s.portfolio[j]?) ∧
      (∀ j, i < j → (deletePortfolioAsset i true s).portfolio[j - 1]? = s.portfolio[j]?) ∧
      (deletePortfolioAsset i true s).storage.portfolio =
        some (deletePortfolioAsset i true s).portfolio) ∧
    deletePortfolioAsset i false s = s ∧
    (k < s.alerts.length →
      (deleteAlert k true s).alerts.length = s.alerts.length - 1 ∧
      (∀ j, j < k → (deleteAlert k true s).alerts[j]? = s.alerts[j]?) ∧
      (∀ j, k < j → (deleteAlert k true s).alerts[j - 1]? = s.alerts[j]?) ∧
      (deleteAlert k true s).storage.priceAlerts = some (deleteAlert k true s).alerts) ∧
    deleteAlert k false s = s := by
  refine ⟨fun hi => ⟨?_, ?_, ?_, rfl⟩, rfl, fun hk => ⟨?_, ?_, ?_, rfl⟩, rfl⟩
  · simp [deletePortfolioAsset, List.length_eraseIdx, hi]
  · intro j hj
    simp [deletePortfolioAsset, List.getElem?_eraseIdx_of_lt _ _ _ hj]
  · intro j hj
    have h1 : i ≤ j - 1 := by omega
    have h2 : j - 1 + 1 = j := by omega
    simp [deletePortfolioAsset, List.getElem?_eraseIdx_of_ge _ _ _ h1, h2]
  · simp [deleteAlert, List.length_eraseIdx, hk]
  · intro j hj
    simp [deleteAlert, List.getElem?_eraseIdx_of_lt _ _ _ hj]
  · intro j hj
    have h1 : k ≤ j - 1 := by omega
    have h2 : j - 1 + 1 = j := by omega
    simp [deleteAlert, List.getElem?_eraseIdx_of_ge _ _ _ h1, h2]

/-- Witness of C8: deleting the middle one of three holdings while `alerts` is empty, and
the first of two alerts while `portfolio` is empty. -/
theorem delete_shifts_and_persists_witness :
    (deletePortfolioAsset 1 true
      { cryptoData := [], alerts := []
        portfolio := [⟨"a", 1, 100, "t1"⟩, ⟨"b", 2, 300, "t2"⟩, ⟨"c", 3, 7, "t3"⟩]
        filteredData := [], storage := ⟨none, none⟩
        searchInput := "" }).portfolio[2 - 1]? =
      [(⟨"a", 1, 100, "t1"⟩ : Asset), ⟨"b", 2, 300, "t2"⟩, ⟨"c", 3, 7, "t3"⟩][2]? ∧
    (deleteAlert 0 true
      { cryptoData := []
        alerts := [⟨"bitcoin", 5, "above", "t1"⟩, ⟨"bitcoin", 6, "below", "t2"⟩]
        portfolio := [], filteredData := [], storage := ⟨none, none⟩
        searchInput := "" }).alerts.length = 2 - 1 :=
  ⟨((delete_shifts_and_persists
      { cryptoData := [], alerts := []
        portfolio := [⟨"a", 1, 100, "t1"⟩, ⟨"b", 2, 300, "t2"⟩, ⟨"c", 3, 7, "t3"⟩]
        filteredData := [], storage := ⟨none, none⟩
        searchInput := "" } 1 0).1 (by decide)).2.2.1 2 (by decide),
   ((delete_shifts_and_persists
      { cryptoData := []
        alerts := [⟨"bitcoin", 5, "above", "t1"⟩, ⟨"bitcoin", 6, "below", "t2"⟩]
        portfolio := [], filteredData := [], storage := ⟨none, none⟩
        searchInput := "" } 0 0).2.2.1 (by decide)).1⟩

/-! ## Number formatting -/

theorem toDigitsCore_eq_digits : ∀ (fuel n : Nat) (ds : List Char), 0 < n → n < fuel →
    Nat.toDigitsCore 10 fuel n ds = ((Nat.digits 10 n).reverse.map Nat.digitChar) ++ ds
  | 0, n, ds, _, h => by omega
  | fuel + 1, n, ds, hn, h => by
    rw [Nat.toDigitsCore]
    by_cases h0 : n / 10 = 0
    · have hlt : n < 10 := by omega
      rw [if_pos h0, Nat.digits_of_lt 10 n (by omega) hlt, Nat.mod_eq_of_lt hlt]
      simp
    · rw [if_neg h0, toDigitsCore_eq_digits fuel (n / 10) _ (by omega) (by omega)]
      conv_rhs => rw [Nat.digits_def' (by norm_num : 1 < 10) hn]
      simp

theorem toDigits_of_lt (n : Nat) (h : n < 10) : Nat.toDigits 10 n = [Nat.digitChar n] := by
  interval_cases n <;> rfl

theorem toDigits_of_ge (n : Nat) (h : 10 ≤ n) :
    Nat.toDigits 10 n = Nat.toDigits 10 (n / 10) ++ [Nat.digitChar (n % 10)] := by
  have h1 : 0 < n / 10 := by omega
  unfold Nat.toDigits
  rw [toDigitsCore_eq_digits _ n _ (by omega) (by omega),
    toDigitsCore_eq_digits _ (n / 10) _ h1 (by omega),
    Nat.digits_def' (by norm_num : 1 < 10) (by omega : 0 < n)]
  simp

theorem lowDigits_succ (k n : Nat) :
    lowDigits (k + 1) n = lowDigits k (n / 10) ++ [Nat.digitChar (n % 10)] := by
  unfold lowDigits
  rw [List.range_succ_eq_map]
  simp [List.map_reverse, Function.comp_def, Nat.pow_succ, Nat.div_div_eq_div_mul, Nat.mul_comm]

theorem length_lowDigits (k n : Nat) : (lowDigits k n).length = k := by
  simp [lowDigits]

theorem lowDigits_zero (k : Nat) : lowDigits k 0 = List.replicate k '0' := by
  induction k with
  | zero => rfl
  | succ k ih =>
    rw [lowDigits_succ, Nat.zero_div, ih, List.replicate_succ']
    rfl

theorem toDigits_split : ∀ (f n : Nat), 10 ^ f ≤ n →
    Nat.toDigits 10 n = Nat.toDigits 10 (n / 10 ^ f) ++ lowDigits f n
  | 0, n, _ => by simp [lowDigits]
  | f + 1, n, h => by
    have h10 : 10 ≤ n := by
      have : 10 ^ 1 ≤ 10 ^ (f + 1) := Nat.pow_le_pow_right (by norm_num) (by omega)
      omega
    have hf : 10 ^ f ≤ n / 10 := by
      rw [Nat.le_div_iff_mul_le (by norm_num)]
      rw [Nat.pow_succ] at h
      exact h
    rw [toDigits_of_ge n h10, toDigits_split f (n / 10) hf, lowDigits_succ,
      Nat.div_div_eq_div_mul, Nat.pow_succ, Nat.mul_comm 10, List.append_assoc]

theorem toDigits_length_pos (n : Nat) : 1 ≤ (Nat.toDigits 10 n).length := by
  by_cases h : n < 10
  · simp [toDigits_of_lt n h]
  · simp [toDigits_of_ge n (by omega)]

theorem toDigits_length_le_iff : ∀ (f n : Nat),
    (Nat.toDigits 10 n).length ≤ f + 1 ↔ n < 10 ^ (f + 1)
  | 0, n => by
    by_cases h : n < 10
    · simp [toDigits_of_lt n h, h]
    · have := toDigits_length_pos (n / 10)
      rw [toDigits_of_ge n (by omega)]
      simp only [List.length_append, List.length_singleton, zero_add, pow_one]
      constructor
      · intro _; omega
      · intro _; omega
  | f + 1, n => by
    by_cases h : n < 10
    · have : 10 ^ 1 ≤ 10 ^ (f + 1 + 1) := Nat.pow_le_pow_right (by norm_num) (by omega)
      simp only [toDigits_of_lt n h, List.length_singleton]
      constructor
      · intro _; omega
      · intro _; omega
    · rw [toDigits_of_ge n (by omega), List.length_append, List.length_singleton,
        Nat.add_le_add_iff_right, toDigits_length_le_iff f (n / 10),
        Nat.div_lt_iff_lt_mul (by norm_num), ← Nat.pow_succ]

theorem replicate_append_toDigits : ∀ (f n : Nat), n < 10 ^ (f + 1) →
    List.replicate (f + 1 - (Nat.toDigits 10 n).length) '0' ++ Nat.toDigits 10 n =
      lowDigits (f + 1) n
  | 0, n, h => by
    have h' : n < 10 := by simpa using h
    have hr : List.range 1 = [0] := rfl
    simp [toDigits_of_lt n h', lowDigits, hr, Nat.mod_eq_of_lt h']
  | f + 1, n, h => by
    by_cases h10 : n < 10
    · rw [toDigits_of_lt n h10, lowDigits_succ, Nat.div_eq_of_lt h10, lowDigits_zero,
        Nat.mod_eq_of_lt h10]
      simp
    · have hd : n / 10 < 10 ^ (f + 1) := by
        rw [Nat.div_lt_iff_lt_mul (by norm_num), ← Nat.pow_succ]
        exact h
      rw [toDigits_of_ge n (by omega), lowDigits_succ, ← replicate_append_toDigits f (n / 10) hd,
        List.length_append, List.length_singleton, Nat.add_sub_add_right, List.append_assoc]

theorem fixedParts_eq (n f : Nat) :
    fixedParts n (f + 1) = (Nat.toDigits 10 (n / 10 ^ (f + 1)), lowDigits (f + 1) n) := by
  unfold fixedParts
  by_cases h : n < 10 ^ (f + 1)
  · have hlen := (toDigits_length_le_iff f n).mpr h
    have hpad : List.replicate (f + 1 + 1 - (Nat.toDigits 10 n).length) '0' ++ Nat.toDigits 10 n
        = '0' :: lowDigits (f + 1) n := by
      rw [← replicate_append_toDigits f n h]
      have : f + 1 + 1 - (Nat.toDigits 10 n).length =
          (f + 1 - (Nat.toDigits 10 n).length) + 1 := by omega
      rw [this, List.replicate_succ]
      rfl
    simp only [hlen, if_true, hpad, Nat.div_eq_of_lt h]
    simp [length_lowDigits]
    rfl
  · have hge : 10 ^ (f + 1) ≤ n := by omega
    have hlen : ¬ (Nat.toDigits 10 n).length ≤ f + 1 := by
      rw [toDigits_length_le_iff]; exact h
    simp only [hlen, if_false]
    have hs := toDigits_split (f + 1) n hge
    have hl : (Nat.toDigits 10 n).length - (f + 1) = (Nat.toDigits 10 (n / 10 ^ (f + 1))).length := by
      rw [hs, List.length_append, length_lowDigits]
      simp [← hs]
    rw [hl]
    conv_lhs => rw [hs]
    simp

theorem roundHalfUp_spec (x : ℚ) (f : Nat) :
    ((roundHalfUp x f : ℕ) : ℚ) ≤ 10 ^ f * |x| + 1 / 2 ∧
    10 ^ f * |x| + 1 / 2 < ((roundHalfUp x f : ℕ) : ℚ) + 1 := by
  have hd : 0 < x.den := x.den_pos
  have hdq : (0 : ℚ) < (x.den : ℚ) := by exact_mod_cast hd
  have habs : |x| = (x.num.natAbs : ℚ) / (x.den : ℚ) := by
    conv_lhs => rw [← Rat.num_div_den x]
    rw [abs_div, Nat.abs_cast, Nat.cast_natAbs, Int.cast_abs]
  have key : (10 : ℚ) ^ f * |x| + 1 / 2 =
      ((2 * x.num.natAbs * 10 ^ f + x.den : ℕ) : ℚ) / ((2 * x.den : ℕ) : ℚ) := by
    rw [habs]
    push_cast
    field_simp
    ring
  have h1 : roundHalfUp x f * (2 * x.den) ≤ 2 * x.num.natAbs * 10 ^ f + x.den :=
    Nat.div_mul_le_self _ _
  have h2 : 2 * x.num.natAbs * 10 ^ f + x.den < 2 * x.den * (roundHalfUp x f + 1) :=
    Nat.lt_mul_div_succ _ (by omega)
  have hD : (0 : ℚ) < ((2 * x.den : ℕ) : ℚ) := by exact_mod_cast (by omega : 0 < 2 * x.den)
  rw [key]
  constructor
  · rw [le_div_iff₀ hD]
    exact_mod_cast h1
  · rw [div_lt_iff₀ hD]
    have : ((2 * x.num.natAbs * 10 ^ f + x.den : ℕ) : ℚ) <
        ((2 * x.den * (roundHalfUp x f + 1) : ℕ) : ℚ) := by exact_mod_cast h2
    calc ((2 * x.num.natAbs * 10 ^ f + x.den : ℕ) : ℚ)
        < ((2 * x.den * (roundHalfUp x f + 1) : ℕ) : ℚ) := this
      _ = ((roundHalfUp x f : ℕ) + 1 : ℚ) * ((2 * x.den : ℕ) : ℚ) := by push_cast; ring

theorem groupThousands_filter : ∀ ds : List Char, (∀ c ∈ ds, c ≠ ',') →
    (groupThousands ds).filter (fun c => c != ',') = ds
  | [], _ => rfl
  | c :: cs, h => by
    have hc : c ≠ ',' := h c (List.mem_cons_self _ _)
    have ih := groupThousands_filter cs (fun d hd => h d (List.mem_cons_of_mem _ hd))
    unfold groupThousands
    split <;> simp [List.filter_cons, hc, ih]

theorem length_groupThousands : ∀ ds : List Char,
    (groupThousands ds).length = ds.length + (ds.length - 1) / 3
  | [] => rfl
  | c :: cs => by
    have ih := length_groupThousands cs
    unfold groupThousands
    split
    · rename_i h
      have hpos : 0 < cs.length := List.length_pos.mpr h.1
      have := h.2
      simp only [List.length_cons, ih]
      omega
    · rename_i h
      simp only [List.length_cons, ih]
      by_cases hnil : cs = []
      · subst hnil; rfl
      · have hpos : 0 < cs.length := List.length_pos.mpr hnil
        have : cs.length % 3 ≠ 0 := fun h3 => h ⟨hnil, h3⟩
        omega

theorem groupThousands_comma : ∀ ds : List Char, (∀ c ∈ ds, c ≠ ',') →
    ∀ i, i < (groupThousands ds).length →
      ((groupThousands ds)[i]? = some ',' ↔ ((groupThousands ds).length - i) % 4 = 0)
  | [], _, i, hi => by simp [groupThousands] at hi
  | c :: cs, h, i, hi => by
    have hc : c ≠ ',' := h c (List.mem_cons_self _ _)
    have ih := groupThousands_comma cs (fun d hd => h d (List.mem_cons_of_mem _ hd))
    have hlen := length_groupThousands cs
    unfold groupThousands at hi ⊢
    split at hi
    · rename_i hg
      rw [if_pos hg]
      have hpos : 0 < cs.length := List.length_pos.mpr hg.1
      have h3 := hg.2
      simp only [List.length_cons] at hi ⊢
      match i, hi with
      | 0, _ =>
        simp only [List.getElem?_cons_zero, Option.some.injEq, hc, false_iff]
        omega
      | 1, _ =>
        simp only [List.getElem?_cons_succ, List.getElem?_cons_zero, true_iff]
        omega
      | j + 2, hj =>
        simp only [List.getElem?_cons_succ]
        rw [ih j (by omega)]
        have : (groupThousands cs).length + 1 + 1 - (j + 2) = (groupThousands cs).length - j := by
          omega
        rw [this]
    · rename_i hg
      rw [if_neg hg]
      simp only [List.length_cons] at hi ⊢
      match i, hi with
      | 0, _ =>
        simp only [List.getElem?_cons_zero, Option.some.injEq, hc, false_iff]
        by_cases hnil : cs = []
        · subst hnil; simp [groupThousands]
        · have hpos : 0 < cs.length := List.length_pos.mpr hnil
          have : cs.length % 3 ≠ 0 := fun h3 => hg ⟨hnil, h3⟩
          omega
      | j + 1, hj =>
        simp only [List.getElem?_cons_succ]
        rw [ih j (by omega)]
        have : (groupThousands cs).length + 1 - (j + 1) = (groupThousands cs).length - j := by
          omega
        rw [this]

theorem digitChar_isDigit (d : Nat) (h : d < 10) : (Nat.digitChar d).isDigit = true := by
  interval_cases d <;> decide

theorem lowDigits_isDigit (k n : Nat) : ∀ c ∈ lowDigits k n, c.isDigit = true := by
  intro c hc
  simp only [lowDigits, List.mem_map, List.mem_reverse] at hc
  obtain ⟨i, _, rfl⟩ := hc
  exact digitChar_isDigit _ (Nat.mod_lt _ (by norm_num))

theorem toDigits_isDigit (n : Nat) : ∀ c ∈ Nat.toDigits 10 n, c.isDigit = true := by
  induction n using Nat.strong_induction_on with
  | _ n ih =>
    intro c hc
    by_cases h : n < 10
    · rw [toDigits_of_lt n h] at hc
      simp only [List.mem_singleton] at hc
      rw [hc]
      exact digitChar_isDigit n h
    · rw [toDigits_of_ge n (by omega), List.mem_append, List.mem_singleton] at hc
      rcases hc with hc | hc
      · exact ih (n / 10) (by omega) c hc
      · rw [hc]
        exact digitChar_isDigit _ (Nat.mod_lt _ (by norm_num))

theorem toDigits_ne_comma (n : Nat) : ∀ c ∈ Nat.toDigits 10 n, c ≠ ',' := by
  intro c hc hcomma
  have := toDigits_isDigit n c hc
  rw [hcomma] at this
  exact absurd this (by decide)

theorem decimalCandidate_spec (m : ℚ) (k : Nat) (c : ℚ) (h : decimalCandidate m k = some c) :
    toNumber c = toNumber m ∧ 0 ≤ c := by
  unfold decimalCandidate at h
  simp only at h
  have hnn : ∀ a b : Nat, (0 : ℚ) ≤ mkRat (a : Nat) b := by
    intro a b
    rw [Rat.mkRat_eq_div]
    exact div_nonneg (by exact_mod_cast Nat.zero_le a) (by exact_mod_cast Nat.zero_le b)
  split at h
  · rename_i hb
    rw [Bool.and_eq_true, decide_eq_true_eq, decide_eq_true_eq] at hb
    split at h
    · rw [← Option.some.inj h]; exact ⟨hb.1, hnn _ _⟩
    · split at h
      · rw [← Option.some.inj h]; exact ⟨hb.2, hnn _ _⟩
      · split at h
        · rw [← Option.some.inj h]; exact ⟨hb.1, hnn _ _⟩
        · rw [← Option.some.inj h]; exact ⟨hb.2, hnn _ _⟩
  · split at h
    · rename_i hlo
      rw [decide_eq_true_eq] at hlo
      rw [← Option.some.inj h]; exact ⟨hlo, hnn _ _⟩
    · split at h
      · rename_i hhi
        rw [decide_eq_true_eq] at hhi
        rw [← Option.some.inj h]; exact ⟨hhi, hnn _ _⟩
      · exact absurd h (by simp)

theorem shortestDecimal_spec (m : ℚ) (hm : 0 ≤ m) :
    toNumber (shortestDecimal m) = toNumber m ∧ 0 ≤ shortestDecimal m := by
  unfold shortestDecimal
  split
  · rename_i h0
    have : m = 0 := Rat.zero_of_num_zero h0
    rw [this]
    exact ⟨rfl, le_refl _⟩
  · split
    · rename_i c hc
      obtain ⟨k, _, hk⟩ := List.exists_of_findSome?_eq_some hc
      exact decimalCandidate_spec m k c hk
    · exact ⟨rfl, hm⟩

theorem formatPrice_of_ge (numberToString : ℚ → String) (m : ℚ) (h : 1 ≤ m) :
    formatPrice numberToString (.finite false m) =
      ⟨groupThousands (Nat.toDigits 10 (roundHalfUp (shortestDecimal m) 2 / 100)) ++
        '.' :: lowDigits 2 (roundHalfUp (shortestDecimal m) 2)⟩ := by
  have hge : (JSNumber.finite false m).ge (.finite false 1) = true := by
    simp [JSNumber.ge, JSNumber.lt, h]
  unfold formatPrice
  rw [if_pos hge]
  simp [toLocaleString, fixedParts_eq]

theorem formatPrice_of_lt (numberToString : ℚ → String) (s : Bool) (m : ℚ)
    (h0 : 0 ≤ m) (hbig : m < 10 ^ 21) (h : s = true ∨ m < 1) :
    formatPrice numberToString (.finite s m) =
      ⟨(if s = true ∧ m ≠ 0 then ['-'] else []) ++
        (Nat.toDigits 10 (roundHalfUp m 6 / 10 ^ 6) ++ '.' :: lowDigits 6 (roundHalfUp m 6))⟩ := by
  have hge : ¬ (JSNumber.finite s m).ge (.finite false 1) = true := by
    rcases h with h | h
    · subst h
      have : -m < 1 := by linarith
      simp [JSNumber.ge, JSNumber.lt, this]
    · cases s
      · simp [JSNumber.ge, JSNumber.lt, h]
      · have : -m < 1 := by linarith
        simp [JSNumber.ge, JSNumber.lt, this]
  have hb : ¬ m ≥ 10 ^ 21 := not_le.mpr hbig
  unfold formatPrice
  rw [if_neg hge]
  simp only [toFixed, hb, if_false, fixedParts_eq]
  congr 2
  by_cases hs : s = true <;> by_cases hm : m = 0 <;> simp [hs, hm]

/-- C9, counterexample: the Number that the numeral `1.005` denotes has an exact value
below 1.005, so that 1.00 is strictly nearer to it than 1.01, and `formatPrice` gives
`1.01`; read as numerals, the tie `1.005` goes up while the tie `0.0000005` goes down. -/
theorem formatPrice_not_nearest :
    toNumber (mkRat 1005 1000) = .finite false (mkRat 1131529406376837 1125899906842624) ∧
    formatPrice (fun _ => "") (.finite false (mkRat 1131529406376837 1125899906842624)) =
      "1.01" ∧
    |mkRat 1131529406376837 1125899906842624 - 1| <
      |mkRat 1131529406376837 1125899906842624 - mkRat 101 100| ∧
    formatPrice (fun _ => "") (toNumber (mkRat 5 10000000)) = "0.000000" := by
  refine ⟨by decide, by decide, ?_, by decide⟩
  rw [Rat.mkRat_eq_div, Rat.mkRat_eq_div]
  norm_num [abs_lt, abs_of_pos, abs_of_neg]

/-- C9, amended: for a Number `m ≥ 1`, `formatPrice` takes the shortest decimal numeral
that reads back as `m`, rounds it to the nearest multiple of 0.01 (a tie going up) and
writes the comma-grouped digits of the integer part, a point and exactly two digits; for a
Number below 1 and above `-10 ^ 21` it rounds the exact value to the nearest multiple of
`10 ^ -6` (a tie going away from zero) and writes the sign, the ungrouped digits of the
integer part, a point and exactly six digits.  The grouping puts a comma exactly at the
positions whose distance to the end of the integer part is a multiple of four, and
removing the commas gives the digits back.  `1234.5` gives `1,234.50`, `0.0001234` gives
`0.000123` and `1.005` gives `1.01`. -/
theorem formatPrice_rounds (numberToString : ℚ → String) (s : Bool) (m : ℚ) :
    (1 ≤ m →
      toNumber (shortestDecimal m) = toNumber m ∧
      ∃ n : ℕ, (n : ℚ) ≤ 100 * shortestDecimal m + 1 / 2 ∧
        100 * shortestDecimal m + 1 / 2 < (n : ℚ) + 1 ∧
        formatPrice numberToString (.finite false m) =
          ⟨groupThousands (Nat.toDigits 10 (n / 100)) ++
            ['.', Nat.digitChar (n / 10 % 10), Nat.digitChar (n % 10)]⟩) ∧
    (0 ≤ m → m < 10 ^ 21 → (s = true ∨ m < 1) →
      ∃ n : ℕ, (n : ℚ) ≤ 10 ^ 6 * m + 1 / 2 ∧ 10 ^ 6 * m + 1 / 2 < (n : ℚ) + 1 ∧
        formatPrice numberToString (.finite s m) =
          ⟨(if s = true ∧ m ≠ 0 then ['-'] else []) ++
            (Nat.toDigits 10 (n / 10 ^ 6) ++ '.' :: lowDigits 6 n)⟩) ∧
    (∀ k n, (lowDigits k n).length = k ∧ ∀ c ∈ lowDigits k n, c.isDigit = true) ∧
    (∀ n, (∀ c ∈ Nat.toDigits 10 n, c.isDigit = true) ∧
      (groupThousands (Nat.toDigits 10 n)).filter (fun c => c != ',') = Nat.toDigits 10 n ∧
      ∀ i, i < (groupThousands (Nat.toDigits 10 n)).length →
        ((groupThousands (Nat.toDigits 10 n))[i]? = some ',' ↔
          ((groupThousands (Nat.toDigits 10 n)).length - i) % 4 = 0)) ∧
    formatPrice numberToString (toNumber 1234.5) = "1,234.50" ∧
    formatPrice numberToString (toNumber 0.0001234) = "0.000123" ∧
    formatPrice numberToString (toNumber 1.005) = "1.01" := by
  refine ⟨?_, ?_, ?_, ?_, ?_, ?_, ?_⟩
  · intro h
    obtain ⟨hback, hnn⟩ := shortestDecimal_spec m (by linarith)
    obtain ⟨h1, h2⟩ := roundHalfUp_spec (shortestDecimal m) 2
    rw [abs_of_nonneg hnn] at h1 h2
    refine ⟨hback, roundHalfUp (shortestDecimal m) 2, by norm_num at h1 ⊢; exact h1,
      by norm_num at h2 ⊢; exact h2, ?_⟩
    rw [formatPrice_of_ge numberToString m h]
    have h2d : lowDigits 2 (roundHalfUp (shortestDecimal m) 2) =
        [Nat.digitChar (roundHalfUp (shortestDecimal m) 2 / 10 % 10),
         Nat.digitChar (roundHalfUp (shortestDecimal m) 2 % 10)] := by
      have hr : List.range 2 = [0, 1] := rfl
      simp [lowDigits, hr]
    rw [h2d]
  · intro h0 hbig h
    obtain ⟨h1, h2⟩ := roundHalfUp_spec m 6
    rw [abs_of_nonneg h0] at h1 h2
    exact ⟨roundHalfUp m 6, h1, h2, formatPrice_of_lt numberToString s m h0 hbig h⟩
  · exact fun k n => ⟨length_lowDigits k n, lowDigits_isDigit k n⟩
  · exact fun n => ⟨toDigits_isDigit n, groupThousands_filter _ (toDigits_ne_comma n),
      groupThousands_comma _ (toDigits_ne_comma n)⟩
  · have he : (1234.5 : ℚ) = mkRat 2469 2 := by norm_num [Rat.mkRat_eq_div]
    have hv : toNumber (mkRat 2469 2) = .finite false (mkRat 2469 2) := by decide
    rw [he, hv, formatPrice_of_ge numberToString _ (by decide)]
    decide
  · have he : (0.0001234 : ℚ) = mkRat 1234 10000000 := by norm_num [Rat.mkRat_eq_div]
    have hv : toNumber (mkRat 1234 10000000) =
        .finite false (mkRat 4552656437391517 36893488147419103232) := by decide
    rw [he, hv, formatPrice_of_lt numberToString false _ (by decide) (by decide)
      (Or.inr (by decide))]
    decide
  · have he : (1.005 : ℚ) = mkRat 1005 1000 := by norm_num [Rat.mkRat_eq_div]
    have hv : toNumber (mkRat 1005 1000) =
        .finite false (mkRat 1131529406376837 1125899906842624) := by decide
    rw [he, hv, formatPrice_of_ge numberToString _ (by decide)]
    decide

end BlessPriceTracker
